import Mathlib

/-!
Verification of the ecoaccounts-indexer control plane (core crate).

Shallow embedding of:
  * `IndexedRangeDecorator::process` (src/core/src/strategies.rs)
  * `AdaptiveChunkManager` and `with_retry` (src/core/src/resilience.rs)
  * the per-range supervisor loop `run_indexer` (src/core/src/indexer.rs)
  * the `POST /api/reindex` handler (src/core/src/api.rs)

Database access is modelled by threading the persisted `indexed_ranges`
row explicitly; the shared supervisory state observed concurrently at
chunk boundaries is modelled by an oracle indexed by the cursor value.
-/

namespace EcoIndexer

/-- `Stats` returned by a strategy run (strategies.rs, lines 63-70). -/
structure Stats where
  logs_found : Nat
  rows_written : Nat
  from_block : Nat
  to_block : Nat
  took_ms : Nat
deriving Repr, DecidableEq

/-- `Stats::default()`: all fields zero. -/
def Stats.default : Stats := ⟨0, 0, 0, 0, 0⟩

/-- Outcome of one `IndexedRangeDecorator::process` call: the returned
value, the persisted `indexed_ranges` row for the strategy afterwards
(`from_block`, `to_block` are `i64` in the table, hence `Int`), and
whether the inner strategy was invoked. -/
structure DecoratorOutcome where
  result : Except String Stats
  newRow : Option (Int × Int)
  innerInvoked : Bool

/-- The coverage test of strategies.rs line 131:
`(from as i64) >= db_from && (to as i64) <= db_to` on the fetched row. -/
def coveredBy (row : Option (Int × Int)) (f t : Nat) : Bool :=
  match row with
  | none => false
  | some (dbFrom, dbTo) => decide (dbFrom ≤ (f : Int)) && decide ((t : Int) ≤ dbTo)

/-- The accumulated-range upsert of strategies.rs lines 149-161:
insert `(f, t)` when no row exists, otherwise
`LEAST(existing.from_block, f)` / `GREATEST(existing.to_block, t)`. -/
def rangeUnion (row : Option (Int × Int)) (f t : Int) : Int × Int :=
  match row with
  | none => (f, t)
  | some (a, b) => (min a f, max b t)

/-- `IndexedRangeDecorator::process` (strategies.rs lines 120-164), with
the database row passed in and returned explicitly and the inner
processor abstracted as a function of the block range. -/
def decoratorProcess (force_reindex : Bool) (row : Option (Int × Int))
    (inner : Nat → Nat → Except String Stats) (f t : Nat) : DecoratorOutcome :=
  if !force_reindex && coveredBy row f t then
    ⟨.ok Stats.default, row, false⟩
  else
    match inner f t with
    | .error e => ⟨.error e, row, true⟩
    | .ok s => ⟨.ok s, some (rangeUnion row (f : Int) (t : Int)), true⟩

/-- Persisted row after a sequence of successful decorator runs, each
applying the accumulated-range upsert. -/
def coverAfter (calls : List (Int × Int)) : Option (Int × Int) :=
  calls.foldl (fun r p => some (rangeUnion r p.1 p.2)) none

/-- Character-list prefix test (used to embed Rust `str::contains`). -/
def charsPre : List Char → List Char → Bool
  | [], _ => true
  | _ :: _, [] => false
  | a :: as, b :: bs => a == b && charsPre as bs

/-- Character-list substring test. -/
def charsSub : List Char → List Char → Bool
  | p, [] => charsPre p []
  | p, b :: bs => charsPre p (b :: bs) || charsSub p bs

/-- Rust `str::contains(pat)` on the embedded strings. -/
def strContains (s pat : String) : Bool := charsSub pat.toList s.toList

/-- Rust `str::to_lowercase()` (ASCII-faithful; the vocabularies below
are ASCII). -/
def strLower (s : String) : String := String.mk (s.toList.map Char.toLower)

/-- `is_chunk_size_error` (resilience.rs lines 117-122). -/
def is_chunk_size_error (e : String) : Bool :=
  let e := strLower e
  strContains e "compute limit" || strContains e "block range" ||
    strContains e "query timeout" || strContains e "response size" ||
    strContains e "exceeded" || strContains e "too large" ||
    strContains e "limit exceeded" || strContains e "timed out" ||
    strContains e "timeout"

/-- `is_retryable_error` (resilience.rs lines 55-61). -/
def is_retryable_error (e : String) : Bool :=
  let e := strLower e
  strContains e "500" || strContains e "502" || strContains e "503" ||
    strContains e "504" || strContains e "429" || strContains e "rate limit" ||
    strContains e "too many requests" || strContains e "request timed out" ||
    strContains e "timeout" || strContains e "temporary" ||
    strContains e "retry" || strContains e "internal error" ||
    strContains e "connection refused" || strContains e "connection reset" ||
    strContains e "broken pipe" || strContains e "network"

/-- `AdaptiveChunkManager` state (resilience.rs lines 63-71).
The atomics are modelled as plain fields; each operation returns the
next state. -/
structure AdaptiveChunkManager where
  current : Nat
  min : Nat
  max : Nat
  initial : Nat
  growth_threshold : Nat
  consecutive_successes : Nat
deriving Repr, DecidableEq

/-- `AdaptiveChunkManager::new` (resilience.rs lines 73-82):
`growth_threshold = 5`, counter starts at 0. -/
def AdaptiveChunkManager.new (initial mn mx : Nat) : AdaptiveChunkManager :=
  ⟨initial, mn, mx, initial, 5, 0⟩

/-- The manager built by `IndexerConfig::new` (indexer.rs lines 26-35):
`min = 100`, `max = 2 × initial`. -/
def indexerChunkManager (initial_chunk_size : Nat) : AdaptiveChunkManager :=
  AdaptiveChunkManager.new initial_chunk_size 100 (initial_chunk_size * 2)

/-- `AdaptiveChunkManager::get`. -/
def AdaptiveChunkManager.get (m : AdaptiveChunkManager) : Nat := m.current

/-- `((old as f64) * 1.25) as u64`: since `1.25 = 5/4` exactly in
binary, this equals `old * 5 / 4` for every `old` whose product is
exactly representable (all chunk sizes in range here). -/
def growChunk (c : Nat) : Nat := c * 5 / 4

/-- `AdaptiveChunkManager::on_success` (resilience.rs lines 86-98):
after `fetch_add` the counter reads `s = consecutive_successes + 1`;
when `s ≥ growth_threshold` the grown value (capped at `max`) is
stored, and the counter reset, only if it strictly exceeds `current`. -/
def on_success (m : AdaptiveChunkManager) : AdaptiveChunkManager :=
  if m.growth_threshold ≤ m.consecutive_successes + 1 then
    if m.current < Nat.min (growChunk m.current) m.max then
      { m with current := Nat.min (growChunk m.current) m.max,
               consecutive_successes := 0 }
    else
      { m with consecutive_successes := m.consecutive_successes + 1 }
  else
    { m with consecutive_successes := m.consecutive_successes + 1 }

/-- `AdaptiveChunkManager::on_rpc_error` (resilience.rs lines 99-109):
on a chunk-size error the halved value (floored at `min`) is stored,
and the counter reset, only if it is strictly below `current`. -/
def on_rpc_error (m : AdaptiveChunkManager) (error : String) : AdaptiveChunkManager :=
  if is_chunk_size_error error then
    if Nat.max (m.current / 2) m.min < m.current then
      { m with current := Nat.max (m.current / 2) m.min,
               consecutive_successes := 0 }
    else
      m
  else
    m

/-- `RetryConfig` (resilience.rs lines 8-14). `backoff_multiplier` is
an `f64`; it is modelled as a rational, exact for the multipliers in
use (the default is `2.0`). -/
structure RetryConfig where
  max_retries : Nat
  initial_delay_ms : Nat
  max_delay_ms : Nat
  backoff_multiplier : ℚ

/-- `RetryConfig::default()` (resilience.rs lines 15-19). -/
def RetryConfig.default : RetryConfig := ⟨5, 500, 30000, 2⟩

/-- The delay update of resilience.rs lines 48-49:
`delay = ((delay as f64) * backoff_multiplier) as u64` (truncation
toward zero, i.e. the floor for the nonnegative values in use),
then `delay = delay.min(max_delay_ms)`. -/
def nextDelay (cfg : RetryConfig) (d : Nat) : Nat :=
  Nat.min (⌊(d : ℚ) * cfg.backoff_multiplier⌋.toNat) cfg.max_delay_ms

/-- Observable outcome of `with_retry`: the returned value, the number
of attempts made (1-indexed, as in the source), and the list of delays
slept between attempts, in order. -/
structure RetryOutcome (T : Type) where
  result : Except String T
  attempts : Nat
  sleeps : List Nat

/-- The retry loop of `with_retry` (resilience.rs lines 33-52), with
the fallible operation modelled as a function from the attempt number
to its result. -/
def withRetryGo {T : Type} (cfg : RetryConfig) (op : Nat → Except String T)
    (delay attempt : Nat) (sleeps : List Nat) : RetryOutcome T :=
  match op attempt with
  | .ok v => ⟨.ok v, attempt, sleeps⟩
  | .error e =>
    if h : cfg.max_retries ≤ attempt ∨ is_retryable_error e = false then
      ⟨.error e, attempt, sleeps⟩
    else
      withRetryGo cfg op (nextDelay cfg delay) (attempt + 1) (sleeps ++ [delay])
termination_by cfg.max_retries - attempt
decreasing_by
  push_neg at h
  omega

/-- `with_retry` (resilience.rs lines 21-53): `delay` starts at
`initial_delay_ms`, `attempt` at 1. -/
def with_retry {T : Type} (cfg : RetryConfig) (op : Nat → Except String T) :
    RetryOutcome T :=
  withRetryGo cfg op cfg.initial_delay_ms 1 []

/-- Observable outcome of one `run_indexer` call (indexer.rs):
the returned block number, the supervisory `index.current` field after
the call (`none` when no `index` work unit is in state), the chunk
ranges dispatched in order, and whether the run exited at an interrupt
checkpoint. -/
structure RunOutcome where
  ret : Nat
  idx : Option Nat
  chunks : List (Nat × Nat)
  interrupted : Bool

/-- The `while cur <= to` loop of `run_indexer` (indexer.rs lines
61-151).  The shared state sampled at each chunk boundary is modelled
by oracles indexed by the cursor: `chunkOf cur` is what
`chunk_manager.get()` returns there and `interruptAt cur` is
`app.should_interrupt()` (i.e. `paused || pending_reindex.is_some()`).
`idx` is `index.current` (`none` when `state.index` is `None`).
`fuel` bounds the iterations; exhaustion (`none`) models
non-termination, which the theorems rule out for positive chunk
sizes. -/
def runLoop (chunkOf : Nat → Nat) (interruptAt : Nat → Bool) (t : Nat) :
    Nat → Option Nat → List (Nat × Nat) → Nat → Option RunOutcome
  | cur, idx, acc, fuel =>
    if t < cur then some ⟨t, idx, acc, false⟩
    else
      match fuel with
      | 0 => none
      | fuel + 1 =>
        if interruptAt cur then some ⟨cur, idx.map (fun _ => cur), acc, true⟩
        else
          runLoop chunkOf interruptAt t
            (Nat.min (cur + chunkOf cur - 1) t + 1)
            (idx.map (fun _ => cur))
            (acc ++ [(cur, Nat.min (cur + chunkOf cur - 1) t)])
            fuel

/-- `run_indexer` (indexer.rs lines 38-156): `ensure!(from <= to)`
first rejects inverted ranges, then the chunk loop runs from `from`. -/
def run_indexer (chunkOf : Nat → Nat) (interruptAt : Nat → Bool)
    (f t : Nat) (idx : Option Nat) : Except String (Option RunOutcome) :=
  if f ≤ t then .ok (runLoop chunkOf interruptAt t f idx [] (t + 2 - f))
  else .error "from > to"

/-- `Status` (api.rs lines 21-28). -/
inductive Status where
  | running
  | paused
  | reindexing
deriving Repr, DecidableEq

/-- `IndexState` (api.rs lines 31-38); `from`/`to` are renamed
`fromB`/`toB` (`from` is reserved in Lean). -/
structure IndexState where
  fromB : Nat
  toB : Nat
  current : Nat
  strategy : Option String
  is_reindex : Bool
deriving Repr, DecidableEq

/-- The supervisory state: `State_` (api.rs lines 40-47) together with
the `paused` atomic of `App` (api.rs line 51). -/
structure AppState where
  status : Status
  last_block : Nat
  head : Nat
  index : Option IndexState
  pending_reindex : Option IndexState
  paused : Bool
deriving Repr, DecidableEq

/-- `ReindexReq` (api.rs lines 105-113); all fields default to
`None` under serde. -/
structure ReindexReq where
  fromQ : Option Nat
  toQ : Option Nat
  strategy : Option String
deriving Repr, DecidableEq

/-- `ReindexReq::default()`. -/
def ReindexReq.default : ReindexReq := ⟨none, none, none⟩

/-- `Resp` (api.rs line 83). -/
structure Resp where
  ok : Bool
  msg : String
deriving Repr, DecidableEq

/-- The guard of api.rs line 163:
`matches!((req.from, req.to), (Some(f), Some(t)) if f > t)`. -/
def invalidRange (req : ReindexReq) : Bool :=
  match req.fromQ, req.toQ with
  | some f, some t => decide (t < f)
  | _, _ => false

/-- The `reindex` handler (api.rs lines 157-182): an absent body acts
as the default request; an invalid range returns `400` and touches
nothing; otherwise `pending_reindex` is overwritten with the request
(`from`/`to` default to 0, `current := 0`, `is_reindex := true`),
`paused` is cleared, and `{ok: true, msg: "reindexing"}` is returned. -/
def reindex (st : AppState) (body : Option ReindexReq) : Except Nat Resp × AppState :=
  let req := body.getD ReindexReq.default
  if invalidRange req then
    (.error 400, st)
  else
    (.ok ⟨true, "reindexing"⟩,
      { st with
          pending_reindex :=
            some ⟨req.fromQ.getD 0, req.toQ.getD 0, 0, req.strategy, true⟩,
          paused := false })

theorem natMinDef (a b : Nat) : Nat.min a b = if a ≤ b then a else b := rfl

theorem coverAfter_from_some (a b : Int) (cs : List (Int × Int)) :
    (cs.foldl (fun r p => some (rangeUnion r p.1 p.2)) (some (a, b))) =
      some ((cs.map Prod.fst).foldl min a, (cs.map Prod.snd).foldl max b) := by
  induction cs generalizing a b with
  | nil => rfl
  | cons c cs ih =>
    simp only [List.foldl_cons, List.map_cons, rangeUnion]
    exact ih (min a c.1) (max b c.2)

/-- C1: with `force_reindex = false` and a persisted row covering
`[f, t]`, the decorator returns empty `Stats` and never invokes the
inner strategy, leaving the row unchanged. -/
theorem c1_skip_on_coverage (inner : Nat → Nat → Except String Stats)
    (row : Option (Int × Int)) (a b : Int) (f t : Nat)
    (hrow : row = some (a, b)) (hf : a ≤ (f : Int)) (ht : (t : Int) ≤ b) :
    decoratorProcess false row inner f t = ⟨.ok Stats.default, row, false⟩ := by
  subst hrow
  simp [decoratorProcess, coveredBy, hf, ht]

theorem c1_skip_on_coverage_witness :
    decoratorProcess false (some ((10 : Int), (100 : Int)))
      (fun _ _ => .error "inner must not run") 20 80 =
      ⟨.ok Stats.default, some ((10 : Int), (100 : Int)), false⟩ :=
  c1_skip_on_coverage (fun _ _ => .error "inner must not run")
    _ 10 100 20 80 rfl (by decide) (by decide)

/-- C2: every successful decorator call leaves the row equal to the
union `(min, max)` of the old row and the processed range; the union
preserves `from_block ≤ to_block`; and folding successful runs yields
`[min of all froms, max of all tos]`. -/
theorem c2_coverage_union :
    (∀ (force : Bool) (row : Option (Int × Int))
        (inner : Nat → Nat → Except String Stats) (f t : Nat) (s : Stats),
      (decoratorProcess force row inner f t).result = .ok s →
      (decoratorProcess force row inner f t).newRow =
        some (rangeUnion row (f : Int) (t : Int))) ∧
    (∀ (a b f t : Int), a ≤ b →
      (rangeUnion (some (a, b)) f t).1 ≤ (rangeUnion (some (a, b)) f t).2) ∧
    (∀ (f t : Int), f ≤ t → (rangeUnion none f t).1 ≤ (rangeUnion none f t).2) ∧
    (∀ (c : Int × Int) (cs : List (Int × Int)),
      coverAfter (c :: cs) =
        some ((cs.map Prod.fst).foldl min c.1, (cs.map Prod.snd).foldl max c.2)) := by
  refine ⟨?_, ?_, ?_, ?_⟩
  · intro force row inner f t s hok
    by_cases hc : (!force && coveredBy row f t) = true
    · cases row with
      | none => simp [coveredBy] at hc
      | some p =>
        obtain ⟨a, b⟩ := p
        have hc2 := hc
        simp only [coveredBy, Bool.and_eq_true, decide_eq_true_eq] at hc2
        simp [decoratorProcess, hc, rangeUnion,
          min_eq_left hc2.2.1, max_eq_left hc2.2.2]
    · simp only [decoratorProcess, if_neg hc] at hok ⊢
      cases hinner : inner f t with
      | error e => simp [hinner] at hok
      | ok s2 => simp [hinner]
  · intro a b f t hab
    simp only [rangeUnion]
    exact le_trans (min_le_left a f) (le_trans hab (le_max_left b t))
  · intro f t hft
    simpa [rangeUnion] using hft
  · intro c cs
    simpa [coverAfter, rangeUnion] using coverAfter_from_some c.1 c.2 cs

theorem c2_coverage_union_witness :
    (decoratorProcess true (some ((10 : Int), (100 : Int)))
        (fun _ _ => .ok Stats.default) 200 300).newRow =
      some (rangeUnion (some ((10 : Int), (100 : Int))) (200 : Int) (300 : Int)) :=
  c2_coverage_union.1 true (some (10, 100)) (fun _ _ => .ok Stats.default)
    200 300 Stats.default rfl

/-- C3: when the inner strategy is actually invoked and returns an
error, the decorator propagates the error and the persisted row is
unchanged (no upsert). -/
theorem c3_error_no_upsert (force : Bool) (row : Option (Int × Int))
    (inner : Nat → Nat → Except String Stats) (f t : Nat) (e : String)
    (hinv : (decoratorProcess force row inner f t).innerInvoked = true)
    (herr : inner f t = .error e) :
    (decoratorProcess force row inner f t).result = .error e ∧
      (decoratorProcess force row inner f t).newRow = row := by
  by_cases hc : (!force && coveredBy row f t) = true
  · simp [decoratorProcess, hc] at hinv
  · unfold decoratorProcess
    rw [if_neg hc, herr]
    exact ⟨rfl, rfl⟩

theorem c3_error_no_upsert_witness :
    (decoratorProcess true (some ((10 : Int), (100 : Int)))
        (fun _ _ => .error "rpc down") 200 300).result = .error "rpc down" ∧
      (decoratorProcess true (some ((10 : Int), (100 : Int)))
        (fun _ _ => .error "rpc down") 200 300).newRow =
        some ((10 : Int), (100 : Int)) :=
  c3_error_no_upsert true (some (10, 100)) (fun _ _ => .error "rpc down")
    200 300 "rpc down" rfl rfl

/-- C4: the repo's constructor establishes `current ≤ max`; both
operations preserve it; under it, `on_success` increments the counter
below the threshold, and at the threshold grows `current` to
`min(max, floor(current × 1.25))` with a counter reset exactly when
that changes `current` (a growth capped to no change keeps counting);
concretely five successes from `current = 1000` with `max ≥ 1250`
yield `get() = 1250` and a reset counter. -/
theorem c4_on_success_growth :
    (∀ cs : Nat,
      (indexerChunkManager cs).current ≤ (indexerChunkManager cs).max) ∧
    (∀ (m : AdaptiveChunkManager) (e : String), m.current ≤ m.max →
      (on_success m).current ≤ (on_success m).max ∧
      (on_rpc_error m e).current ≤ (on_rpc_error m e).max) ∧
    (∀ m : AdaptiveChunkManager, m.current ≤ m.max → m.growth_threshold = 5 →
      (m.consecutive_successes + 1 < 5 →
        on_success m = { m with consecutive_successes := m.consecutive_successes + 1 }) ∧
      (5 ≤ m.consecutive_successes + 1 →
        m.current < Nat.min (growChunk m.current) m.max →
        on_success m = { m with current := Nat.min (growChunk m.current) m.max,
                                consecutive_successes := 0 }) ∧
      (5 ≤ m.consecutive_successes + 1 →
        Nat.min (growChunk m.current) m.max = m.current →
        on_success m = { m with consecutive_successes := m.consecutive_successes + 1 })) ∧
    (∀ mx : Nat, 1250 ≤ mx →
      (on_success (on_success (on_success (on_success
        (on_success ⟨1000, 100, mx, 1000, 5, 0⟩))))).get = 1250 ∧
      (on_success (on_success (on_success (on_success
        (on_success ⟨1000, 100, mx, 1000, 5, 0⟩))))).consecutive_successes = 0) := by
  refine ⟨?_, ?_, ?_, ?_⟩
  · intro cs
    show cs ≤ cs * 2
    omega
  · intro m e hm
    constructor
    · unfold on_success
      split
      · split
        · exact Nat.min_le_right _ _
        · exact hm
      · exact hm
    · unfold on_rpc_error
      split
      · split
        · exact le_trans (Nat.le_of_lt (by assumption)) hm
        · exact hm
      · exact hm
  · intro m hm ht
    refine ⟨?_, ?_, ?_⟩
    · intro hs
      unfold on_success
      rw [ht, if_neg (by omega)]
    · intro hs hlt
      unfold on_success
      rw [ht, if_pos hs, if_pos hlt]
    · intro hs heq
      unfold on_success
      rw [ht, if_pos hs, heq, if_neg (lt_irrefl m.current)]
  · intro mx hmx
    have hg : growChunk 1000 = 1250 := by decide
    have hmin : Nat.min (growChunk 1000) mx = 1250 := by
      rw [hg]
      unfold Nat.min
      exact if_pos hmx
    constructor <;>
      simp [on_success, AdaptiveChunkManager.get, hmin]

theorem c4_on_success_growth_witness :
    (on_success (on_success (on_success (on_success
      (on_success ⟨1000, 100, 2000, 1000, 5, 0⟩))))).get = 1250 ∧
    (on_success (on_success (on_success (on_success
      (on_success ⟨1000, 100, 2000, 1000, 5, 0⟩))))).consecutive_successes = 0 :=
  c4_on_success_growth.2.2.2 2000 (by omega)

/-- C5 counterexample: at the floor (`current = min = 100`) a matching
chunk-size error performs no store at all, so the success counter is
NOT reset to 0 as the claim requires. -/
theorem c5_counterexample :
    is_chunk_size_error "timeout" = true ∧
      (on_rpc_error ⟨100, 100, 2000, 1000, 5, 3⟩ "timeout").consecutive_successes = 3 ∧
      ¬ (on_rpc_error ⟨100, 100, 2000, 1000, 5, 3⟩ "timeout").consecutive_successes = 0 := by
  decide

/-- C5 amended: on a matching chunk-size error, `current` and the
counter change (to `max(min, current / 2)` and `0`) only when the
halved value is strictly below `current`; otherwise the state is left
entirely unchanged. Non-matching messages leave the state unchanged. -/
theorem c5_on_rpc_error_amended (m : AdaptiveChunkManager) (msg : String) :
    (is_chunk_size_error msg = true →
      Nat.max (m.current / 2) m.min < m.current →
      on_rpc_error m msg = { m with current := Nat.max (m.current / 2) m.min,
                                    consecutive_successes := 0 }) ∧
    (is_chunk_size_error msg = true →
      ¬ Nat.max (m.current / 2) m.min < m.current →
      on_rpc_error m msg = m) ∧
    (is_chunk_size_error msg = false → on_rpc_error m msg = m) := by
  refine ⟨?_, ?_, ?_⟩
  · intro hmsg hlt
    unfold on_rpc_error
    rw [hmsg, if_pos rfl, if_pos hlt]
  · intro hmsg hnlt
    unfold on_rpc_error
    rw [hmsg, if_pos rfl, if_neg hnlt]
  · intro hmsg
    unfold on_rpc_error
    rw [hmsg]
    rfl

theorem c5_on_rpc_error_amended_witness :
    on_rpc_error ⟨1000, 100, 2000, 1000, 5, 2⟩ "response size exceeded" =
      { current := Nat.max (1000 / 2) 100, min := 100, max := 2000,
        initial := 1000, growth_threshold := 5, consecutive_successes := 0 } :=
  (c5_on_rpc_error_amended ⟨1000, 100, 2000, 1000, 5, 2⟩
    "response size exceeded").1 (by decide) (by decide)

theorem withRetryGo_ok {T : Type} (cfg : RetryConfig) (op : Nat → Except String T)
    (d a : Nat) (s : List Nat) (v : T) (hop : op a = .ok v) :
    withRetryGo cfg op d a s = ⟨.ok v, a, s⟩ := by
  unfold withRetryGo
  rw [hop]

theorem withRetryGo_halt {T : Type} (cfg : RetryConfig) (op : Nat → Except String T)
    (d a : Nat) (s : List Nat) (e : String) (hop : op a = .error e)
    (hhalt : cfg.max_retries ≤ a ∨ is_retryable_error e = false) :
    withRetryGo cfg op d a s = ⟨.error e, a, s⟩ := by
  conv_lhs => unfold withRetryGo
  rw [hop]
  exact dif_pos hhalt

theorem withRetryGo_step {T : Type} (cfg : RetryConfig) (op : Nat → Except String T)
    (d a : Nat) (s : List Nat) (e : String) (hop : op a = .error e)
    (hr : is_retryable_error e = true) (ha : a < cfg.max_retries) :
    withRetryGo cfg op d a s =
      withRetryGo cfg op (nextDelay cfg d) (a + 1) (s ++ [d]) := by
  conv_lhs => unfold withRetryGo
  rw [hop]
  exact dif_neg (by simp only [not_or]; exact ⟨by omega, by simp [hr]⟩)

theorem withRetryGo_first_success {T : Type} (cfg : RetryConfig)
    (op : Nat → Except String T) (v : T) :
    ∀ (k a d : Nat) (s : List Nat),
      (∀ i, a ≤ i → i < a + k → ∃ e, op i = .error e ∧ is_retryable_error e = true) →
      op (a + k) = .ok v → (k = 0 ∨ a + k ≤ cfg.max_retries) →
      (withRetryGo cfg op d a s).result = .ok v ∧
        (withRetryGo cfg op d a s).attempts = a + k := by
  intro k
  induction k with
  | zero =>
    intro a d s _ hok _
    rw [withRetryGo_ok cfg op d a s v hok]
    exact ⟨rfl, rfl⟩
  | succ k ih =>
    intro a d s herrs hok hbound
    obtain ⟨e, hop, hr⟩ := herrs a (le_refl a) (by omega)
    have hmax : a + (k + 1) ≤ cfg.max_retries := by
      rcases hbound with h | h
      · omega
      · exact h
    rw [withRetryGo_step cfg op d a s e hop hr (by omega)]
    have hshift : a + (k + 1) = (a + 1) + k := by omega
    rw [hshift] at hok hmax ⊢
    exact ih (a + 1) (nextDelay cfg d) (s ++ [d])
      (fun i h1 h2 => herrs i (by omega) (by omega)) hok (Or.inr hmax)

theorem withRetryGo_exhaust {T : Type} (cfg : RetryConfig)
    (op : Nat → Except String T) (f : Nat → String) :
    ∀ (k a d : Nat) (s : List Nat), a + k = cfg.max_retries →
      (∀ i, a ≤ i → i ≤ cfg.max_retries →
        op i = .error (f i) ∧ is_retryable_error (f i) = true) →
      (withRetryGo cfg op d a s).result = .error (f cfg.max_retries) ∧
        (withRetryGo cfg op d a s).attempts = cfg.max_retries := by
  intro k
  induction k with
  | zero =>
    intro a d s ha herrs
    obtain ⟨hop, _⟩ := herrs a (le_refl a) (by omega)
    rw [withRetryGo_halt cfg op d a s (f a) hop (Or.inl (by omega))]
    rw [show a = cfg.max_retries by omega]
    exact ⟨rfl, rfl⟩
  | succ k ih =>
    intro a d s ha herrs
    obtain ⟨hop, hr⟩ := herrs a (le_refl a) (by omega)
    rw [withRetryGo_step cfg op d a s (f a) hop hr (by omega)]
    exact ih (a + 1) (nextDelay cfg d) (s ++ [d]) (by omega)
      (fun i h1 h2 => herrs i (by omega) h2)

/-- C6: `with_retry` returns a first-attempt success at once; a
non-retryable first error is surfaced after exactly one attempt with
no sleep; a retryable error below `max_retries` sleeps the current
delay and continues with `delay := min(max_delay_ms,
floor(delay × backoff_multiplier))`; if every attempt up to
`max_retries` fails retryably the `max_retries`-th error is surfaced;
and in general the first successful attempt `j ≤ max_retries` (all
earlier errors retryable) yields its value after exactly `j`
attempts. -/
theorem c6_with_retry_spec :
    (∀ (T : Type) (cfg : RetryConfig) (op : Nat → Except String T) (v : T),
      op 1 = .ok v → with_retry cfg op = ⟨.ok v, 1, []⟩) ∧
    (∀ (T : Type) (cfg : RetryConfig) (op : Nat → Except String T) (e : String),
      op 1 = .error e → is_retryable_error e = false →
      with_retry cfg op = ⟨.error e, 1, []⟩) ∧
    (∀ (T : Type) (cfg : RetryConfig) (op : Nat → Except String T)
        (d a : Nat) (s : List Nat) (e : String),
      op a = .error e → is_retryable_error e = true → a < cfg.max_retries →
      withRetryGo cfg op d a s =
        withRetryGo cfg op (Nat.min (⌊(d : ℚ) * cfg.backoff_multiplier⌋.toNat)
          cfg.max_delay_ms) (a + 1) (s ++ [d])) ∧
    (∀ (T : Type) (cfg : RetryConfig) (op : Nat → Except String T) (f : Nat → String),
      1 ≤ cfg.max_retries →
      (∀ i, 1 ≤ i → i ≤ cfg.max_retries →
        op i = .error (f i) ∧ is_retryable_error (f i) = true) →
      (with_retry cfg op).result = .error (f cfg.max_retries) ∧
        (with_retry cfg op).attempts = cfg.max_retries) ∧
    (∀ (T : Type) (cfg : RetryConfig) (op : Nat → Except String T) (v : T) (j : Nat),
      1 ≤ j → j ≤ cfg.max_retries →
      (∀ i, 1 ≤ i → i < j → ∃ e, op i = .error e ∧ is_retryable_error e = true) →
      op j = .ok v →
      (with_retry cfg op).result = .ok v ∧ (with_retry cfg op).attempts = j) := by
  refine ⟨?_, ?_, ?_, ?_, ?_⟩
  · intro T cfg op v hok
    exact withRetryGo_ok cfg op cfg.initial_delay_ms 1 [] v hok
  · intro T cfg op e hop hfatal
    exact withRetryGo_halt cfg op cfg.initial_delay_ms 1 [] e hop (Or.inr hfatal)
  · intro T cfg op d a s e hop hr ha
    exact withRetryGo_step cfg op d a s e hop hr ha
  · intro T cfg op f hmax herrs
    have := withRetryGo_exhaust cfg op f (cfg.max_retries - 1) 1
      cfg.initial_delay_ms [] (by omega) (fun i h1 h2 => herrs i h1 h2)
    exact this
  · intro T cfg op v j h1 hj herrs hok
    have hshift : j = 1 + (j - 1) := by omega
    have := withRetryGo_first_success cfg op v (j - 1) 1 cfg.initial_delay_ms []
      (fun i hi1 hi2 => herrs i hi1 (by omega)) (by rw [← hshift]; exact hok)
      (Or.inr (by omega))
    rw [← hshift] at this
    exact this

theorem c6_with_retry_spec_witness :
    with_retry RetryConfig.default
        (fun _ => (.error "bad request: malformed" : Except String Nat)) =
      ⟨.error "bad request: malformed", 1, ([] : List Nat)⟩ :=
  c6_with_retry_spec.2.1 Nat RetryConfig.default
    (fun _ => .error "bad request: malformed") "bad request: malformed"
    rfl (by decide)

theorem runLoop_done (chunkOf : Nat → Nat) (interruptAt : Nat → Bool)
    (t cur : Nat) (idx : Option Nat) (acc : List (Nat × Nat)) (fuel : Nat)
    (h : t < cur) :
    runLoop chunkOf interruptAt t cur idx acc fuel = some ⟨t, idx, acc, false⟩ := by
  unfold runLoop
  rw [if_pos h]

theorem runLoop_interrupt (chunkOf : Nat → Nat) (interruptAt : Nat → Bool)
    (t cur : Nat) (idx : Option Nat) (acc : List (Nat × Nat)) (fuel : Nat)
    (hcur : cur ≤ t) (hint : interruptAt cur = true) :
    runLoop chunkOf interruptAt t cur idx acc (fuel + 1) =
      some ⟨cur, idx.map (fun _ => cur), acc, true⟩ := by
  unfold runLoop
  rw [if_neg (by omega), hint]
  rfl

theorem runLoop_step (chunkOf : Nat → Nat) (interruptAt : Nat → Bool)
    (t cur : Nat) (idx : Option Nat) (acc : List (Nat × Nat)) (fuel : Nat)
    (hcur : cur ≤ t) (hint : interruptAt cur = false) :
    runLoop chunkOf interruptAt t cur idx acc (fuel + 1) =
      runLoop chunkOf interruptAt t
        (Nat.min (cur + chunkOf cur - 1) t + 1)
        (idx.map (fun _ => cur))
        (acc ++ [(cur, Nat.min (cur + chunkOf cur - 1) t)])
        fuel := by
  conv_lhs => unfold runLoop
  rw [if_neg (by omega), hint]
  rfl

/-- With every chunk size positive and no interrupt observed, the loop
terminates within its fuel and returns `t` uninterrupted. -/
theorem runLoop_total (chunkOf : Nat → Nat) (interruptAt : Nat → Bool) (t : Nat)
    (hchunk : ∀ i, 1 ≤ chunkOf i) (hint : ∀ i, interruptAt i = false) :
    ∀ (fuel cur : Nat) (idx : Option Nat) (acc : List (Nat × Nat)),
      t + 1 - cur ≤ fuel →
      ∃ r : RunOutcome, runLoop chunkOf interruptAt t cur idx acc fuel = some r ∧
        r.ret = t ∧ r.interrupted = false := by
  intro fuel
  induction fuel with
  | zero =>
    intro cur idx acc hfuel
    refine ⟨⟨t, idx, acc, false⟩, ?_, rfl, rfl⟩
    exact runLoop_done chunkOf interruptAt t cur idx acc 0 (by omega)
  | succ fuel ih =>
    intro cur idx acc hfuel
    by_cases hcur : t < cur
    · exact ⟨⟨t, idx, acc, false⟩,
        runLoop_done chunkOf interruptAt t cur idx acc (fuel + 1) hcur, rfl, rfl⟩
    · rw [runLoop_step chunkOf interruptAt t cur idx acc fuel (by omega) (hint cur)]
      refine ih _ _ _ ?_
      have := hchunk cur
      have hmin : cur ≤ Nat.min (cur + chunkOf cur - 1) t := by
        rw [natMinDef]
        split <;> omega
      omega

/-- Every terminating `runLoop` result extends the chunk accumulator:
chunks already dispatched stay a prefix of the final list. -/
theorem runLoop_acc_prefix (chunkOf : Nat → Nat) (interruptAt : Nat → Bool)
    (t : Nat) :
    ∀ (fuel cur : Nat) (idx : Option Nat) (acc : List (Nat × Nat)) (r : RunOutcome),
      runLoop chunkOf interruptAt t cur idx acc fuel = some r →
      ∃ rest, r.chunks = acc ++ rest := by
  intro fuel
  induction fuel with
  | zero =>
    intro cur idx acc r hr
    unfold runLoop at hr
    by_cases hcur : t < cur
    · rw [if_pos hcur] at hr
      exact ⟨[], by simp [← Option.some_inj.mp hr]⟩
    · rw [if_neg hcur] at hr
      exact absurd hr (by simp)
  | succ fuel ih =>
    intro cur idx acc r hr
    by_cases hcur : t < cur
    · rw [runLoop_done chunkOf interruptAt t cur idx acc (fuel + 1) hcur] at hr
      exact ⟨[], by simp [← Option.some_inj.mp hr]⟩
    · by_cases hi : interruptAt cur = true
      · rw [runLoop_interrupt chunkOf interruptAt t cur idx acc fuel (by omega) hi] at hr
        exact ⟨[], by simp [← Option.some_inj.mp hr]⟩
      · rw [runLoop_step chunkOf interruptAt t cur idx acc fuel (by omega)
          (by simpa using hi)] at hr
        obtain ⟨rest, hrest⟩ := ih _ _ _ _ hr
        exact ⟨(cur, Nat.min (cur + chunkOf cur - 1) t) :: rest, by
          simpa using hrest⟩

/-- C7: at a chunk boundary inside `[from, to]` the supervisor exits
cooperatively when an interrupt is observed, recording
`index.current := cur` and returning `cur`; with no interrupt it
records `index.current := cur` and continues with the next chunk; a
run that never observes an interrupt returns `to`; and a subsequent
resume call starting at the recorded block processes its first chunk
from exactly that block. -/
theorem c7_cooperative_interrupt :
    (∀ (chunkOf : Nat → Nat) (interruptAt : Nat → Bool) (t cur v : Nat)
        (acc : List (Nat × Nat)) (fuel : Nat),
      cur ≤ t → interruptAt cur = true →
      runLoop chunkOf interruptAt t cur (some v) acc (fuel + 1) =
        some ⟨cur, some cur, acc, true⟩) ∧
    (∀ (chunkOf : Nat → Nat) (interruptAt : Nat → Bool) (t cur v : Nat)
        (acc : List (Nat × Nat)) (fuel : Nat),
      cur ≤ t → interruptAt cur = false →
      runLoop chunkOf interruptAt t cur (some v) acc (fuel + 1) =
        runLoop chunkOf interruptAt t
          (Nat.min (cur + chunkOf cur - 1) t + 1) (some cur)
          (acc ++ [(cur, Nat.min (cur + chunkOf cur - 1) t)]) fuel) ∧
    (∀ (chunkOf : Nat → Nat) (interruptAt : Nat → Bool) (f t : Nat)
        (idx : Option Nat),
      (∀ i, 1 ≤ chunkOf i) → (∀ i, interruptAt i = false) → f ≤ t →
      ∃ r : RunOutcome, run_indexer chunkOf interruptAt f t idx = .ok (some r) ∧
        r.ret = t ∧ r.interrupted = false) ∧
    (∀ (chunkOf : Nat → Nat) (interruptAt : Nat → Bool) (cur t : Nat)
        (idx : Option Nat) (r : RunOutcome),
      interruptAt cur = false → cur ≤ t →
      run_indexer chunkOf interruptAt cur t idx = .ok (some r) →
      ∃ rest, r.chunks =
        (cur, Nat.min (cur + chunkOf cur - 1) t) :: rest) := by
  refine ⟨?_, ?_, ?_, ?_⟩
  · intro chunkOf interruptAt t cur v acc fuel hcur hi
    rw [runLoop_interrupt chunkOf interruptAt t cur (some v) acc fuel hcur hi]
    rfl
  · intro chunkOf interruptAt t cur v acc fuel hcur hi
    rw [runLoop_step chunkOf interruptAt t cur (some v) acc fuel hcur hi]
    rfl
  · intro chunkOf interruptAt f t idx hchunk hint hft
    obtain ⟨r, hr, hret, hintr⟩ :=
      runLoop_total chunkOf interruptAt t hchunk hint (t + 2 - f) f idx [] (by omega)
    exact ⟨r, by unfold run_indexer; rw [if_pos hft, hr], hret, hintr⟩
  · intro chunkOf interruptAt cur t idx r hi hcur hrun
    unfold run_indexer at hrun
    rw [if_pos hcur] at hrun
    have hfuel : t + 2 - cur = (t + 1 - cur) + 1 := by omega
    rw [hfuel, runLoop_step chunkOf interruptAt t cur idx [] (t + 1 - cur)
      hcur hi] at hrun
    obtain ⟨rest, hrest⟩ := runLoop_acc_prefix chunkOf interruptAt t _ _ _ _ r
      (Option.some_inj.mp (by simpa using hrun))
    exact ⟨rest, by simpa using hrest⟩

theorem c7_cooperative_interrupt_witness :
    runLoop (fun _ => 10) (fun c => decide (c = 25)) 100 25 (some 7) [] 4 =
      some ⟨25, some 25, [], true⟩ :=
  c7_cooperative_interrupt.1 (fun _ => 10) (fun c => decide (c = 25))
    100 25 7 [] 3 (by omega) (by decide)

/-- C8: each non-interrupted iteration dispatches
`[cur, min(cur + chunk - 1, to)]` with the end saturating at `to` and
advances the cursor to `end + 1`, strictly past `cur` whenever the
chunk size is positive; the manager keeps `current` at or above its
(positive) `min` bound once there; and under positive chunk sizes a
non-interrupted run terminates returning `to`. -/
theorem c8_chunk_advance_termination :
    (∀ (chunkOf : Nat → Nat) (interruptAt : Nat → Bool) (t cur : Nat)
        (idx : Option Nat) (acc : List (Nat × Nat)) (fuel : Nat),
      cur ≤ t → interruptAt cur = false →
      runLoop chunkOf interruptAt t cur idx acc (fuel + 1) =
        runLoop chunkOf interruptAt t
          (Nat.min (cur + chunkOf cur - 1) t + 1)
          (idx.map (fun _ => cur))
          (acc ++ [(cur, Nat.min (cur + chunkOf cur - 1) t)]) fuel ∧
      Nat.min (cur + chunkOf cur - 1) t ≤ t ∧
      (1 ≤ chunkOf cur → cur < Nat.min (cur + chunkOf cur - 1) t + 1)) ∧
    (∀ (m : AdaptiveChunkManager) (e : String),
      1 ≤ m.min → m.min ≤ m.current →
      m.min ≤ (on_success m).current ∧ m.min ≤ (on_rpc_error m e).current) ∧
    (∀ (chunkOf : Nat → Nat) (interruptAt : Nat → Bool) (f t : Nat)
        (idx : Option Nat),
      (∀ i, 1 ≤ chunkOf i) → (∀ i, interruptAt i = false) → f ≤ t →
      ∃ r : RunOutcome, run_indexer chunkOf interruptAt f t idx = .ok (some r) ∧
        r.ret = t) := by
  refine ⟨?_, ?_, ?_⟩
  · intro chunkOf interruptAt t cur idx acc fuel hcur hi
    refine ⟨runLoop_step chunkOf interruptAt t cur idx acc fuel hcur hi, ?_, ?_⟩
    · rw [natMinDef]
      split <;> omega
    · intro hc
      rw [natMinDef]
      split <;> omega
  · intro m e hpos hmin
    constructor
    · unfold on_success
      split
      · split
        · refine le_trans hmin (le_of_lt ?_)
          assumption
        · exact hmin
      · exact hmin
    · unfold on_rpc_error
      split
      · split
        · exact Nat.le_max_right (m.current / 2) m.min
        · exact hmin
      · exact hmin
  · intro chunkOf interruptAt f t idx hchunk hint hft
    obtain ⟨r, hr, hret, _⟩ :=
      runLoop_total chunkOf interruptAt t hchunk hint (t + 2 - f) f idx [] (by omega)
    exact ⟨r, by unfold run_indexer; rw [if_pos hft, hr], hret⟩

theorem c8_chunk_advance_termination_witness :
    runLoop (fun _ => 500) (fun _ => false) 2400 1001 none [] 4 =
      runLoop (fun _ => 500) (fun _ => false) 2400
        (Nat.min (1001 + 500 - 1) 2400 + 1) none
        [(1001, Nat.min (1001 + 500 - 1) 2400)] 3 ∧
      Nat.min (1001 + 500 - 1) 2400 ≤ 2400 ∧
      (1 ≤ 500 → 1001 < Nat.min (1001 + 500 - 1) 2400 + 1) := by
  have h := (c8_chunk_advance_termination.1 (fun _ => 500) (fun _ => false)
    2400 1001 none [] 3 (by omega) rfl)
  simpa using h

/-- C10: `run_indexer` rejects an inverted range `from > to` up front
with an error, before any chunk is dispatched or any supervisory
state is touched. -/
theorem c10_inverted_range_error (chunkOf : Nat → Nat) (interruptAt : Nat → Bool)
    (f t : Nat) (idx : Option Nat) (h : t < f) :
    run_indexer chunkOf interruptAt f t idx = .error "from > to" := by
  unfold run_indexer
  rw [if_neg (by omega)]

theorem c10_inverted_range_error_witness :
    run_indexer (fun _ => 500) (fun _ => false) 5000 4000 none =
      .error "from > to" :=
  c10_inverted_range_error (fun _ => 500) (fun _ => false) 5000 4000 none
    (by omega)

/-- C9: a reindex request with both bounds present and `from > to` is
rejected with `400` and the whole supervisory state — in particular
`pending_reindex` and `paused` — is unchanged; any other request
succeeds with `{ok: true}`, overwrites `pending_reindex` with exactly
the queued request (so at most one is ever queued) and clears
`paused`. -/
theorem c9_reindex_validation :
    (∀ (st : AppState) (f t : Nat) (strat : Option String), t < f →
      reindex st (some ⟨some f, some t, strat⟩) = (.error 400, st)) ∧
    (∀ (st : AppState) (body : Option ReindexReq),
      invalidRange (body.getD ReindexReq.default) = false →
      reindex st body =
        (.ok ⟨true, "reindexing"⟩,
          { st with
              pending_reindex :=
                some ⟨(body.getD ReindexReq.default).fromQ.getD 0,
                  (body.getD ReindexReq.default).toQ.getD 0, 0,
                  (body.getD ReindexReq.default).strategy, true⟩,
              paused := false })) := by
  constructor
  · intro st f t strat h
    unfold reindex
    rw [if_pos (by simp [invalidRange, h])]
  · intro st body h
    unfold reindex
    rw [if_neg (by simp [h])]

theorem c9_reindex_validation_witness :
    reindex ⟨Status.running, 0, 0, none, none, false⟩
        (some ⟨some 5000, some 4000, none⟩) =
      (.error 400, ⟨Status.running, 0, 0, none, none, false⟩) :=
  c9_reindex_validation.1 ⟨Status.running, 0, 0, none, none, false⟩
    5000 4000 none (by omega)

end EcoIndexer
